import Mathlib

/-!
Verification of the Guro learning application's task/level progression engine
and code-validation subsystem.  Definitions are shallow embeddings of the
TypeScript source: `updateTaskProgress`, `completeLevel`, the
highest-unlocked-level computation and `selectLevel` from the `App` component;
`handleCodeChange` from the `LevelView` component; `validateHTMLStructure` and
`validateCSSProperties` from the curriculum module.  JavaScript `Set` objects
are embedded as insertion-ordered duplicate-free lists, JS objects keyed by
strings as association lists, and `undefined`/`null` as `Option`.
-/

/-- `ProjectCode`: record of the accumulated html/css/js artifact
(`types.ts`).  A missing field is `none`. -/
structure ProjectCode where
  html : Option String := none
  css : Option String := none
  js : Option String := none
deriving Repr, DecidableEq

/-- `LevelProgress`: per-level progress entry (`types.ts` `UserProgress`
values).  `completedTasks` embeds a JS `Set<string>`: an insertion-ordered
list without duplicates. -/
structure LevelProgress where
  completedTasks : List String
  currentProjectCode : ProjectCode
  isCompleted : Bool
deriving Repr, DecidableEq

/-- Skeleton of a catalog `Level` (`types.ts`): identifier, title, the task
identifiers in order, and the optional `unlocksNextLevel` pointer.  Task
bodies (instructions, validators, starter code) are irrelevant to the
progression engine, which consults only `id`, `title`, `tasks.length`,
task ids and `unlocksNextLevel`. -/
structure LevelDef where
  id : String
  title : String
  taskIds : List String
  unlocksNextLevel : Option String
deriving Repr, DecidableEq

/-- The progress store: JS object keyed by level id (`UserProgress` in
`types.ts`), embedded as an association list with unique keys in insertion
order. -/
abbrev Store := List (String × LevelProgress)

/-- JS object property read `o[k]`: first (unique) binding, `undefined`
becomes `none`. -/
def getEntry (s : Store) (k : String) : Option LevelProgress :=
  (s.find? (fun p => p.1 == k)).map (·.2)

/-- JS object property write `{...o, [k]: v}`: replace the existing binding in
place, otherwise append (JS object key insertion order). -/
def setEntry : Store → String → LevelProgress → Store
  | [], k, v => [(k, v)]
  | (k', v') :: rest, k, v =>
      if k' == k then (k, v) :: rest else (k', v') :: setEntry rest k v

/-- JS `Set.prototype.add`: append if not already present. -/
def setAdd (l : List String) (x : String) : List String :=
  if x ∈ l then l else l ++ [x]

/-- `userProgress[levelId]?.isCompleted` truthiness test. -/
def isCompletedIn (progress : Store) (levelId : String) : Bool :=
  match getEntry progress levelId with
  | some e => e.isCompleted
  | none => false

/-- The default progress entry
`{ completedTasks: new Set(), currentProjectCode: {}, isCompleted: false }`. -/
def emptyProgress : LevelProgress := ⟨[], {}, false⟩

/-- `updateTaskProgress` from the `App` component: adds `taskId` to the
level's completed-task set, optionally replaces the project code, and sets
`isCompleted` when the set's size reaches the level's task count.  The
catalog (the module-level `LEVELS` constant in the source) is passed
explicitly. -/
def updateTaskProgress (levels : List LevelDef) (prev : Store)
    (levelId taskId : String) (projectCodeUpdate : Option ProjectCode) : Store :=
  let currentLevelProgress := (getEntry prev levelId).getD emptyProgress
  let newCompletedTasks := setAdd currentLevelProgress.completedTasks taskId
  let updatedLevelData : LevelProgress :=
    { currentLevelProgress with
      completedTasks := newCompletedTasks
      currentProjectCode :=
        projectCodeUpdate.getD currentLevelProgress.currentProjectCode }
  let updatedLevelData :=
    match levels.find? (fun l => l.id == levelId) with
    | some levelDefinition =>
        if newCompletedTasks.length == levelDefinition.taskIds.length then
          { updatedLevelData with isCompleted := true }
        else updatedLevelData
    | none => updatedLevelData
  setEntry prev levelId updatedLevelData

/-- `completeLevel` from the `App` component (store update only; the
accompanying view reset to the level selector is UI state, see `selectLevel`
for the session-state embedding).  Force-sets `isCompleted := true` and
optionally replaces the project code
(`finalProjectCode || prev[levelId]?.currentProjectCode || {}`). -/
def completeLevel (prev : Store) (levelId : String)
    (finalProjectCode : Option ProjectCode) : Store :=
  let base := (getEntry prev levelId).getD emptyProgress
  setEntry prev levelId
    { base with
      isCompleted := true
      currentProjectCode :=
        finalProjectCode.getD
          (((getEntry prev levelId).map (·.currentProjectCode)).getD {}) }

/-- The catalog skeleton of `LEVELS` (`constants/levels.ts`): ids, titles,
task ids and `unlocksNextLevel` pointers, in catalog order. -/
def GuroLevels : List LevelDef := [
  ⟨"1", "Intro: What is HTML?", ["1.1", "1.2", "1.3"], some "2"⟩,
  ⟨"2", "Paragraphs and Text", ["2.1", "2.2", "2.3"], some "3"⟩,
  ⟨"3", "Text Formatting", ["3.1", "3.2", "3.3"], some "4"⟩,
  ⟨"4", "Lists: Ordered & Unordered", ["4.1", "4.2"], some "5"⟩,
  ⟨"5", "Links and Attributes", ["5.1", "5.2"], some "6"⟩,
  ⟨"6", "Images", ["6.1", "6.2"], some "7"⟩,
  ⟨"7", "Comments & Page Structure", ["7.1", "7.2"], some "bonus1"⟩,
  ⟨"bonus1", "Bonus: Your First Webpage", ["b1.1"], some "8"⟩,
  ⟨"8", "Intro to CSS: Styling!", ["8.1", "8.2"], some "9"⟩,
  ⟨"9", "CSS Selectors: Class & ID", ["9.1", "9.2"], some "10"⟩,
  ⟨"10", "Font Styling", ["10.1", "10.2", "10.3"], some "11"⟩,
  ⟨"11", "The Box Model", ["11.1", "11.2", "11.3"], some "12"⟩,
  ⟨"12", "CSS Units", ["12.1", "12.2", "12.3"], some "13"⟩,
  ⟨"13", "Display Property", ["13.1", "13.2", "13.3", "13.4"], some "14"⟩,
  ⟨"14", "Styling Links", ["14.1", "14.2"], some "bonus2"⟩,
  ⟨"bonus2", "Bonus: Style Your Page", ["b2.1"], some "15"⟩,
  ⟨"15", "Intro to JavaScript!", ["15.1", "15.2"], some "16"⟩,
  ⟨"16", "Variables & Data Types", ["16.1", "16.2", "16.3"], some "17"⟩,
  ⟨"17", "Functions", ["17.1", "17.2", "17.3"], some "18"⟩,
  ⟨"18", "Conditional Logic: If/Else", ["18.1", "18.2", "18.3"], some "19"⟩,
  ⟨"19", "DOM Manipulation: Get & Set", ["19.1", "19.2", "19.3"], some "20"⟩,
  ⟨"20", "Event Listeners: Click!", ["20.1", "20.2", "20.3"], some "bonus3"⟩,
  ⟨"bonus3", "Bonus: Interactive About Me", ["b3.1"], some "21"⟩,
  ⟨"21", "Calc HTML: Structure", ["21.1", "21.2", "21.3"], some "22"⟩,
  ⟨"22", "Calc CSS: Styling", ["22.1", "22.2", "22.3", "22.4", "22.5"], some "23"⟩,
  ⟨"23", "Calc JS: Number Input", ["23.1", "23.2", "23.3"], some "24"⟩,
  ⟨"24", "Calc JS: Operators & Logic", ["24.1", "24.2", "24.3"], some "25"⟩,
  ⟨"25", "Calc JS: Equals & Clear", ["25.1", "25.2", "25.3"], some "bonus4"⟩,
  ⟨"bonus4", "Bonus: Calc Enhancements", ["b4.1"], some "26"⟩,
  ⟨"26", "Store HTML: Page Layout", ["26.1", "26.2"], some "27"⟩,
  ⟨"27", "Store CSS: Basic Styling", ["27.1", "27.2", "27.3", "27.4"], some "28"⟩,
  ⟨"28", "Store JS: Dynamic Products", ["28.1", "28.2"], some "29"⟩,
  ⟨"29", "Store CSS: Responsiveness", ["29.1", "29.2"], some "30"⟩,
  ⟨"30", "Store JS: Add to Cart", ["30.1", "30.2"], some "bonus5"⟩,
  ⟨"bonus5", "Bonus: Store Enhancements", ["b5.1"], none⟩]

/-- The completion invariant claimed of the store: for every catalog level
with a stored entry, `isCompleted` holds exactly when the completed-task set
contains every task identifier of the level. -/
def invHolds (catalog : List LevelDef) (store : Store) : Bool :=
  catalog.all (fun l =>
    match getEntry store l.id with
    | some e => e.isCompleted == l.taskIds.all (fun t => e.completedTasks.contains t)
    | none => true)

/-- Store well-formedness relative to the catalog: every stored entry of a
catalog level has a duplicate-free completed-task set drawn from the level's
task identifiers, and its completion flag agrees with the completion
invariant. -/
def storeOK (catalog : List LevelDef) (store : Store) : Prop :=
  ∀ l ∈ catalog, ∀ e, getEntry store l.id = some e →
    e.completedTasks.Nodup ∧ (∀ t ∈ e.completedTasks, t ∈ l.taskIds) ∧
    (e.isCompleted = true ↔ ∀ t ∈ l.taskIds, t ∈ e.completedTasks)

/-- JS `Array.prototype.findIndex`: index of the first match, `-1` when there
is none. -/
def jsFindIndex {α : Type} (p : α → Bool) : List α → Int
  | [] => -1
  | x :: xs =>
      if p x then 0
      else if jsFindIndex p xs == -1 then -1 else jsFindIndex p xs + 1

/-- JS array subscript `a[i]` with a possibly negative index: `undefined`
becomes `none`. -/
def jsIndex {α : Type} (l : List α) (i : Int) : Option α :=
  if i < 0 then none else l[i.toNat]?

/-- JS truthiness of `level.unlocksNextLevel` negated by `!`: `null`,
`undefined` and the empty string are falsy. -/
def optFalsy : Option String → Bool
  | none => true
  | some s => s == ""

/-- The inner fallback scan of the highest-unlocked `useEffect` in the `App`
component: walk `LEVELS` from the start, stop at the first uncompleted level;
when the last index is reached while completed, take it. -/
def scanFirstUncompleted (progress : Store) : List LevelDef → String → String
  | [], maxU => maxU
  | l :: rest, maxU =>
      if !(isCompletedIn progress l.id) then l.id
      else if rest.isEmpty then l.id
      else scanFirstUncompleted progress rest maxU

/-- The `for (const level of LEVELS)` loop of the highest-unlocked
`useEffect` in the `App` component, returning the `maxUnlocked` accumulator
and the `allLevelsCompleted` flag.  The `jsIndex … = none` branch marks the
spot where the JS code would dereference an `undefined` previous level (it is
unreachable because the loop only visits members of `all`). -/
def highestLoop (all : List LevelDef) (progress : Store) :
    List LevelDef → String → String × Bool
  | [], maxU => (maxU, true)
  | level :: rest, maxU =>
      if isCompletedIn progress level.id then
        let nextLevel : Option LevelDef :=
          match level.unlocksNextLevel with
          | some nid => all.find? (fun l => l.id == nid)
          | none => none
        let maxU' :=
          match nextLevel with
          | some nl => nl.id
          | none => if optFalsy level.unlocksNextLevel then level.id else maxU
        highestLoop all progress rest maxU'
      else
        let levelIndex := jsFindIndex (fun l => l.id == level.id) all
        if levelIndex == 0 then (level.id, false)
        else
          match jsIndex all (levelIndex - 1) with
          | some prevLevel =>
              if isCompletedIn progress prevLevel.id then (level.id, false)
              else (scanFirstUncompleted progress all maxU, false)
          | none => (maxU, false)

/-- The highest-unlocked derivation of the `useEffect` in the `App`
component: an empty catalog yields the sentinel `"1"`; otherwise run the loop
and, when every level is completed, take the last level's id. -/
def computeHighestUnlocked (all : List LevelDef) (progress : Store) : String :=
  match all with
  | [] => "1"
  | _ :: _ =>
      let r := highestLoop all progress all "1"
      if r.2 then ((all.getLast?).map LevelDef.id).getD "1"
      else r.1

/-- Spec-side notion of a level being reached, given the previous level in
catalog order (`none` for the first level): the first level is always
reached, any other level is reached when its immediate predecessor is
completed. -/
def reachedVia (progress : Store) : Option LevelDef → Bool
  | none => true
  | some p => isCompletedIn progress p.id

/-- Spec-side Unlock Policy walk, following the spec's words: walk the
catalog in its defined order and take the first level that is reached but
not completed. -/
def specWalk (progress : Store) : Option LevelDef → List LevelDef → Option LevelDef
  | _, [] => none
  | prevOpt, l :: rest =>
      if reachedVia progress prevOpt && !(isCompletedIn progress l.id) then some l
      else specWalk progress (some l) rest

/-- Spec-side highest unlocked level: the first reached-but-not-completed
level in catalog order; when every level is completed, the last level. -/
def specHighestUnlocked (all : List LevelDef) (progress : Store) : String :=
  match specWalk progress none all with
  | some l => l.id
  | none => ((all.getLast?).map LevelDef.id).getD "1"

/-- A three-level catalog `[A→B→C]` as in the spec's Unlock Policy example. -/
def abcCatalog : List LevelDef :=
  [⟨"A", "Level A", ["a.1"], some "B"⟩,
   ⟨"B", "Level B", ["b.1"], some "C"⟩,
   ⟨"C", "Level C", ["c.1"], none⟩]

/-- The two top-level views (`AppView` in `types.ts`). -/
inductive AppView where
  | level_selector
  | level_view
deriving Repr, DecidableEq

/-- The `App` component's session state touched by `selectLevel`: the
current view, the current level id, and the progress store. -/
structure AppState where
  currentView : AppView
  currentLevelId : Option String
  userProgress : Store
deriving Repr, DecidableEq

/-- `selectLevel` from the `App` component: an unknown id returns early;
a level whose catalog index does not exceed the highest-unlocked index is
opened; otherwise nothing changes and an alert message is produced (returned
as `some`).  The `| _, _ =>` fallback of the message match marks where the
JS code would dereference an `undefined` array element (unreachable when the
highest-unlocked id occurs in the catalog). -/
def selectLevel (all : List LevelDef) (highestLevelUnlocked : String)
    (st : AppState) (levelId : String) : AppState × Option String :=
  match all.find? (fun l => l.id == levelId) with
  | none => (st, none)
  | some _ =>
      let levelIndex := jsFindIndex (fun l => l.id == levelId) all
      let highestUnlockedIndex :=
        jsFindIndex (fun l => l.id == highestLevelUnlocked) all
      if levelIndex ≤ highestUnlockedIndex then
        ({ st with currentLevelId := some levelId, currentView := .level_view }, none)
      else
        let firstLockedMessage :=
          if highestUnlockedIndex + 1 < (all.length : Int) then
            match jsIndex all highestUnlockedIndex,
                jsIndex all (highestUnlockedIndex + 1) with
            | some hl, some nl =>
                "Please complete \"" ++ hl.title ++ "\" to unlock \"" ++ nl.title ++ "\"."
            | _, _ => "Complete previous levels to unlock this one!"
          else "Complete previous levels to unlock this one!"
        (st, some firstLockedMessage)

/-- `ValidationResult` (`types.ts`): verdict, message, optional updated
project code. -/
structure ValidationResult where
  success : Bool
  message : String
  updatedProjectCode : Option ProjectCode := none
deriving Repr, DecidableEq

/-- The `LevelView` session state touched by `handleCodeChange`: the editor
text and the currently displayed feedback (if any). -/
structure SessionEditorState where
  userCode : String
  feedback : Option ValidationResult
deriving Repr, DecidableEq

/-- `handleCodeChange` from the `LevelView` component: always store the new
code; return early when `feedback?.success` is truthy (keeping the success
message), otherwise clear the feedback. -/
def handleCodeChange (st : SessionEditorState) (newCode : String) :
    SessionEditorState :=
  if (st.feedback.map ValidationResult.success).getD false then
    { st with userCode := newCode }
  else
    { st with userCode := newCode, feedback := none }

/-- A persisted `completedTasks` JSON field: an array of strings, or any
other (malformed) JSON value. -/
inductive JsonTasks where
  | arr (tasks : List String)
  | malformed
deriving Repr, DecidableEq

/-- A persisted per-level record as written by `JSON.stringify` with the
Set-to-Array replacer in the `App` component; `none` in `completedTasks`
models a missing field in externally held data. -/
structure SerializedLevelProgress where
  completedTasks : Option JsonTasks
  currentProjectCode : ProjectCode
  isCompleted : Bool
deriving Repr, DecidableEq

/-- Serialization of the store (`localStorage.setItem` in the `App`
component, with the replacer turning each `Set` into `Array.from(value)`). -/
def serializeStore (s : Store) : List (String × SerializedLevelProgress) :=
  s.map (fun p =>
    (p.1, ⟨some (.arr p.2.completedTasks), p.2.currentProjectCode, p.2.isCompleted⟩))

/-- JS `new Set(array)`: keep first occurrences in order, collapse
duplicates. -/
def setFromList (l : List String) : List String := l.foldl setAdd []

/-- The load-time restoration in the `App` component's `useState`
initializer: an array field becomes a `Set` (duplicates collapsed), a
malformed or missing field becomes an empty `Set`. -/
def deserializeProgress (e : SerializedLevelProgress) : LevelProgress :=
  { completedTasks :=
      match e.completedTasks with
      | some (.arr l) => setFromList l
      | some .malformed => []
      | none => []
    currentProjectCode := e.currentProjectCode
    isCompleted := e.isCompleted }

/-- The load-time restoration applied to the whole persisted store. -/
def deserializeStore (s : List (String × SerializedLevelProgress)) : Store :=
  s.map (fun p => (p.1, deserializeProgress p.2))

/-- An expected string value in a validator expectation: a literal string or
a JS `RegExp`, the latter embedded as its source text together with its
acceptance test. -/
inductive StrMatcher where
  | str (s : String)
  | pattern (source : String) (test : String → Bool)

/-- A DOM node as produced by the external `DOMParser`: an element with tag,
attributes and children, or a text node. -/
inductive DomNode where
  | elem (tag : String) (attrs : List (String × String)) (children : List DomNode)
  | text (s : String)

/-- A parsed document: the list of root nodes. -/
abbrev Doc := List DomNode

mutual
/-- DOM `textContent`: concatenation of all descendant text. -/
def textContent : DomNode → String
  | .text s => s
  | .elem _ _ children => textContentList children

def textContentList : List DomNode → String
  | [] => ""
  | n :: ns => textContent n ++ textContentList ns
end

mutual
/-- All elements of a node in document (pre-)order, each paired with the tag
of its parent element (`none` for a root). -/
def nodeElems (parent : Option String) : DomNode → List (Option String × DomNode)
  | .text _ => []
  | .elem t a c => (parent, .elem t a c) :: listElems (some t) c

def listElems (parent : Option String) : List DomNode → List (Option String × DomNode)
  | [] => []
  | n :: ns => nodeElems parent n ++ listElems parent ns
end

/-- `document.querySelectorAll` restricted to the selector shapes the
validator builds: a bare tag name, or `parent > tag` with a tag-name parent
selector.  Returns matching elements in document order. -/
def querySelectorAll (doc : Doc) (parentSel : Option String) (tag : String) :
    List DomNode :=
  (listElems none doc).filterMap (fun pn =>
    match pn.2 with
    | .elem t _ _ =>
        if t == tag &&
            (match parentSel with
             | none => true
             | some ps => pn.1 == some ps) then some pn.2 else none
    | .text _ => none)

/-- DOM `getAttribute`: `null` becomes `none`. -/
def getAttribute (n : DomNode) (attr : String) : Option String :=
  match n with
  | .elem _ attrs _ => (attrs.find? (fun a => a.1 == attr)).map (·.2)
  | .text _ => none

/-- Position of the first occurrence of `needle` in a character list. -/
def firstMatchPos (needle : List Char) : List Char → Option Nat
  | [] => if needle.isEmpty then some 0 else none
  | c :: rest =>
      if needle.isPrefixOf (c :: rest) then some 0
      else (firstMatchPos needle rest).map (· + 1)

/-- JS `String.prototype.includes`. -/
def strIncludes (hay needle : String) : Bool :=
  (firstMatchPos needle.data hay.data).isSome

/-- Interpolation of a possibly `null` JS value into a template literal
(`null` prints as `"null"`). -/
def attrValStr : Option String → String
  | some s => s
  | none => "null"

/-- One element expectation of `validateHTMLStructure`
(`constants/levels.ts`). -/
structure ElementExpectation where
  tag : String
  text : Option StrMatcher := none
  attributes : List (String × StrMatcher) := []
  count : Option Nat := none
  parentSelector : Option String := none

/-- JS falsiness of `el.count`: `undefined` and `0` are falsy. -/
def countFalsy : Option Nat → Bool
  | none => true
  | some 0 => true
  | some _ => false

/-- The ``${el.parentSelector ? ` inside ${el.parentSelector}` : ''}``
message fragment. -/
def insideSuffix : Option String → String
  | some p => " inside " ++ p
  | none => ""

/-- The `el.count !== undefined && elements.length !== el.count` early
return of `validateHTMLStructure`. -/
def countCheck (el : ElementExpectation) (n : Nat) : Option String :=
  match el.count with
  | some c =>
      if n != c then
        some ("Expected " ++ toString c ++ " " ++ ("<" ++ el.tag ++ ">") ++
          " element(s)" ++ insideSuffix el.parentSelector ++ ", but found " ++
          toString n ++ ".")
      else none
  | none => none

/-- The `!el.count && elements.length === 0 && el.tag !== '!--'` early
return of `validateHTMLStructure`. -/
def missingCheck (el : ElementExpectation) (n : Nat) : Option String :=
  if countFalsy el.count && n == 0 && el.tag != "!--" then
    some ("Missing " ++ ("<" ++ el.tag ++ ">") ++ " element" ++
      insideSuffix el.parentSelector ++ ".")
  else none

/-- The `if (el.text)` block of `validateHTMLStructure`, applied to the
first matching element (a falsy empty-string expectation is skipped, as in
JS). -/
def checkText (el : ElementExpectation) (firstElement : DomNode) : Option String :=
  match el.text with
  | none => none
  | some (.str s) =>
      if s == "" then none
      else
        let tc := textContent firstElement
        if !(strIncludes tc s) then
          some (("<" ++ el.tag ++ ">") ++ " element should contain text: \"" ++
            s ++ "\". Found: \"" ++ tc ++ "\"")
        else none
  | some (.pattern _ test) =>
      let tc := textContent firstElement
      if !(test tc) then
        some (("<" ++ el.tag ++ ">") ++
          " element text does not match pattern. Found: \"" ++ tc ++ "\"")
      else none

/-- The `if (el.attributes)` loop of `validateHTMLStructure`, applied to the
first matching element. -/
def checkAttrs (tag : String) (firstElement : DomNode) :
    List (String × StrMatcher) → Option String
  | [] => none
  | (attr, expectedValue) :: rest =>
      let actualValue := getAttribute firstElement attr
      match expectedValue with
      | .pattern _ test =>
          match actualValue with
          | none =>
              some (("<" ++ tag ++ ">") ++ " element attribute '" ++ attr ++
                "' value \"" ++ attrValStr actualValue ++ "\" does not match pattern.")
          | some v =>
              if !(test v) then
                some (("<" ++ tag ++ ">") ++ " element attribute '" ++ attr ++
                  "' value \"" ++ attrValStr actualValue ++ "\" does not match pattern.")
              else checkAttrs tag firstElement rest
      | .str s =>
          if actualValue != some s then
            some (("<" ++ tag ++ ">") ++ " element attribute '" ++ attr ++
              "' should be '" ++ s ++ "'. Found '" ++ attrValStr actualValue ++ "'.")
          else checkAttrs tag firstElement rest

/-- Text check followed by attribute checks on the first matching element. -/
def checkTextAttrs (el : ElementExpectation) (firstElement : DomNode) : Option String :=
  match checkText el firstElement with
  | some m => some m
  | none => checkAttrs el.tag firstElement el.attributes

/-- One iteration of the `for (const el of expectedElements)` loop of
`validateHTMLStructure`: the first failing check's message, `none` when the
expectation is met. -/
def checkExpectation (doc : Doc) (el : ElementExpectation) : Option String :=
  let elements := querySelectorAll doc el.parentSelector el.tag
  match countCheck el elements.length with
  | some m => some m
  | none =>
      match missingCheck el elements.length with
      | some m => some m
      | none =>
          match elements with
          | [] => none
          | firstElement :: _ => checkTextAttrs el firstElement

/-- The expectation loop of `validateHTMLStructure`: return the first
failure immediately, success only after every expectation passes. -/
def validateHTMLStructureLoop (doc : Doc) : List ElementExpectation → ValidationResult
  | [] => { success := true, message := "HTML structure looks good!" }
  | el :: rest =>
      match checkExpectation doc el with
      | some m => { success := false, message := m }
      | none => validateHTMLStructureLoop doc rest

/-- A token of the simplified markup scanner: an opening tag, a closing tag,
or a text run. -/
inductive HtmlTok where
  | openTag (tag : String)
  | closeTag (tag : String)
  | textTok (s : String)

/-- Tokenizer of the simplified markup parser (fuel-indexed; the fuel bounds
the number of steps and one character is consumed per step at least). -/
def tokenizeAux : Nat → List Char → List HtmlTok
  | 0, _ => []
  | _ + 1, [] => []
  | fuel + 1, '<' :: '/' :: rest =>
      let name := rest.takeWhile (fun c => c != '>')
      let rest' := (rest.dropWhile (fun c => c != '>')).drop 1
      .closeTag (String.mk name) :: tokenizeAux fuel rest'
  | fuel + 1, '<' :: rest =>
      let name := rest.takeWhile (fun c => c != '>')
      let rest' := (rest.dropWhile (fun c => c != '>')).drop 1
      .openTag (String.mk name) :: tokenizeAux fuel rest'
  | fuel + 1, cs =>
      let txt := cs.takeWhile (fun c => c != '<')
      let rest' := cs.dropWhile (fun c => c != '<')
      .textTok (String.mk txt) :: tokenizeAux fuel rest'

/-- Tree builder of the simplified markup parser: returns the nodes built
and the remaining tokens after an (optional) closing tag. -/
def buildNodes : Nat → List HtmlTok → List DomNode × List HtmlTok
  | 0, toks => ([], toks)
  | _ + 1, [] => ([], [])
  | _ + 1, .closeTag _ :: rest => ([], rest)
  | fuel + 1, .textTok s :: rest =>
      let (ns, r) := buildNodes fuel rest
      (.text s :: ns, r)
  | fuel + 1, .openTag t :: rest =>
      let (children, r) := buildNodes fuel rest
      let (sibs, r') := buildNodes fuel r
      (.elem t [] children :: sibs, r')

/-- Modelled from the spec: the external `DOMParser.parseFromString(code,
'text/html')` collaborator, which "parses the submitted markup into a
DOM-like tree".  Simplified recursive parser for plain nested tags: `<name>`
opens an element, `</name>` closes the innermost open element, other text
becomes a text node; tag attributes are not modelled (the claims' inputs
carry none). -/
def parseHTML (code : String) : Doc :=
  (buildNodes (code.data.length + 1) (tokenizeAux (code.data.length + 1) code.data)).1

/-- `validateHTMLStructure` (`constants/levels.ts`): parse the submitted
markup and evaluate the element expectations in order. -/
def validateHTMLStructure (code : String)
    (expectedElements : List ElementExpectation) : ValidationResult :=
  validateHTMLStructureLoop (parseHTML code) expectedElements

/-- The characters of the JS regex class `\s` (the ASCII whitespace forms
and no-break space). -/
def isJsSpace (c : Char) : Bool :=
  c == ' ' || c == '\t' || c == '\n' || c == '\r' || c == '\x0b' ||
    c == '\x0c' || c == '\u00A0'

/-- JS `String.prototype.trim`. -/
def jsTrim (l : List Char) : List Char :=
  ((l.dropWhile isJsSpace).reverse.dropWhile isJsSpace).reverse

/-- JS `String.prototype.toLowerCase` (ASCII letters). -/
def jsToLowerCase (s : String) : String := String.mk (s.data.map Char.toLower)

/-- JS `String.prototype.indexOf(needle, start)`: `-1` when absent, a
negative `start` clamped to `0`. -/
def jsIndexOfFrom (hay needle : List Char) (start : Int) : Int :=
  match firstMatchPos needle (hay.drop start.toNat) with
  | some i => ((i + start.toNat : Nat) : Int)
  | none => -1

/-- One attempt of the property regex `` `${prop}\s*:\s*([^;]+)` `` at the
start of `s`: the literal property name, optional whitespace, a colon,
optional whitespace, then a non-empty capture up to the next semicolon. -/
def matchPropAt (prop : List Char) (s : List Char) : Option (List Char) :=
  if prop.isPrefixOf s then
    match (s.drop prop.length).dropWhile isJsSpace with
    | ':' :: s2 =>
        let cap := (s2.dropWhile isJsSpace).takeWhile (fun c => c != ';')
        if cap.isEmpty then none else some cap
    | _ => none
  else none

/-- `ruleContent.match(propRegex)`: try the property regex at every
position, first success wins; the returned list is the capture group. -/
def regexFindCapture (prop : List Char) : List Char → Option (List Char)
  | [] => matchPropAt prop []
  | c :: rest =>
      match matchPropAt prop (c :: rest) with
      | some cap => some cap
      | none => regexFindCapture prop rest

/-- One entry of the `expectedStyles` argument of `validateCSSProperties`
(`constants/levels.ts`). -/
structure StyleExpectation where
  selector : String
  properties : List (String × StrMatcher)

/-- The `for (const prop in style.properties)` loop of
`validateCSSProperties`: each required property is matched inside the rule
content via the property regex; literal values compare case-insensitively,
pattern values via the pattern's test. -/
def checkCSSProps (selector : String) (ruleContent : List Char) :
    List (String × StrMatcher) → Option String
  | [] => none
  | (prop, value) :: rest =>
      match regexFindCapture prop.data ruleContent with
      | none =>
          some ("Property '" ++ prop ++ "' not found for selector '" ++
            selector ++ "'.")
      | some cap =>
          let actualValue := String.mk (jsTrim cap)
          match value with
          | .pattern src test =>
              if !(test actualValue) then
                some ("Property '" ++ prop ++ "' for '" ++ selector ++
                  "' has value '" ++ actualValue ++
                  "', which does not match pattern '" ++ src ++ "'.")
              else checkCSSProps selector ruleContent rest
          | .str s =>
              if jsToLowerCase actualValue != jsToLowerCase s then
                some ("Property '" ++ prop ++ "' for '" ++ selector ++
                  "' should be '" ++ s ++ "', but found '" ++ actualValue ++ "'.")
              else checkCSSProps selector ruleContent rest

/-- One iteration of the `for (const style of expectedStyles)` loop of
`validateCSSProperties`: locate the selector's first occurrence, take the
following brace-delimited block (`substring(ruleStartIndex + 1,
ruleEndIndex)`), then check each required property. -/
def checkStyle (code : String) (style : StyleExpectation) : Option String :=
  let selectorIndex := jsIndexOfFrom code.data style.selector.data 0
  if selectorIndex == -1 then
    some ("CSS rule for selector '" ++ style.selector ++ "' not found.")
  else
    let ruleStartIndex := jsIndexOfFrom code.data "\x7b".data selectorIndex
    let ruleEndIndex := jsIndexOfFrom code.data "\x7d".data ruleStartIndex
    if ruleStartIndex == -1 || ruleEndIndex == -1 then
      some ("Could not find opening or closing braces for CSS rule '" ++
        style.selector ++ "'.")
    else
      let ruleContent := (code.data.drop (ruleStartIndex + 1).toNat).take
        (ruleEndIndex - (ruleStartIndex + 1)).toNat
      checkCSSProps style.selector ruleContent style.properties

/-- The style-expectation loop of `validateCSSProperties`: first failure
returned immediately, success only after every expectation passes. -/
def validateCSSPropertiesLoop (code : String) :
    List StyleExpectation → ValidationResult
  | [] => { success := true, message := "CSS styles look correct!" }
  | style :: rest =>
      match checkStyle code style with
      | some m => { success := false, message := m }
      | none => validateCSSPropertiesLoop code rest

/-- `validateCSSProperties` (`constants/levels.ts`). -/
def validateCSSProperties (code : String)
    (expectedStyles : List StyleExpectation) : ValidationResult :=
  validateCSSPropertiesLoop code expectedStyles

theorem getEntry_setEntry_self (s : Store) (k : String) (v : LevelProgress) :
    getEntry (setEntry s k v) k = some v := by
  induction s with
  | nil => simp [setEntry, getEntry]
  | cons p rest ih =>
      by_cases h : p.1 = k
      · simp [setEntry, h, getEntry]
      · simp only [setEntry]
        rw [if_neg (by simpa using h)]
        simpa [getEntry, List.find?, (by simpa using h : (p.1 == k) = false)] using ih

theorem getEntry_setEntry_ne (s : Store) (k k' : String) (v : LevelProgress)
    (h : k' ≠ k) : getEntry (setEntry s k v) k' = getEntry s k' := by
  induction s with
  | nil => simp [setEntry, getEntry, List.find?, (by simpa using h.symm : (k == k') = false)]
  | cons p rest ih =>
      by_cases hp : p.1 = k
      · subst hp
        simp [setEntry, getEntry, List.find?,
          (by simpa using h.symm : (p.1 == k') = false)]
      · simp only [setEntry]
        rw [if_neg (by simpa using hp)]
        by_cases hk' : p.1 = k'
        · simp [getEntry, List.find?, hk']
        · simpa [getEntry, List.find?, (by simpa using hk' : (p.1 == k') = false)] using ih

theorem setAdd_nodup {l : List String} (h : l.Nodup) (x : String) :
    (setAdd l x).Nodup := by
  unfold setAdd
  by_cases hx : x ∈ l
  · simpa [hx]
  · have hdisj : l.Disjoint [x] := by
      intro a ha hax
      rw [List.mem_singleton] at hax
      exact hx (hax ▸ ha)
    simpa [hx] using List.Nodup.append h (by simp) hdisj

theorem mem_setAdd_self (l : List String) (x : String) : x ∈ setAdd l x := by
  unfold setAdd
  by_cases hx : x ∈ l <;> simp [hx]

theorem mem_setAdd_of_mem {l : List String} {t : String} (x : String)
    (h : t ∈ l) : t ∈ setAdd l x := by
  unfold setAdd
  by_cases hx : x ∈ l <;> simp [hx, h]

theorem mem_setAdd {l : List String} {t x : String} (h : t ∈ setAdd l x) :
    t ∈ l ∨ t = x := by
  unfold setAdd at h
  by_cases hx : x ∈ l
  · simp [hx] at h; exact Or.inl h
  · simpa [hx] using h

theorem setAdd_eq_of_mem {l : List String} {x : String} (h : x ∈ l) :
    setAdd l x = l := by
  simp [setAdd, h]

/-- For duplicate-free lists `a ⊆ b`, equality of lengths is exactly mutual
containment. -/
theorem nodup_subset_length_iff {a b : List String} (ha : a.Nodup)
    (hb : b.Nodup) (hsub : ∀ x ∈ a, x ∈ b) :
    (a.length = b.length ↔ ∀ x ∈ b, x ∈ a) := by
  have hfin : a.toFinset ⊆ b.toFinset := by
    intro x hx
    simpa [List.mem_toFinset] using hsub x (by simpa [List.mem_toFinset] using hx)
  have hca : a.toFinset.card = a.length := List.toFinset_card_of_nodup ha
  have hcb : b.toFinset.card = b.length := List.toFinset_card_of_nodup hb
  constructor
  · intro hlen x hx
    have : a.toFinset = b.toFinset :=
      Finset.eq_of_subset_of_card_le hfin (by omega)
    have := this ▸ (List.mem_toFinset.mpr hx)
    simpa [List.mem_toFinset] using this
  · intro hsup
    have : a.toFinset = b.toFinset := by
      apply Finset.Subset.antisymm hfin
      intro x hx
      simpa [List.mem_toFinset] using hsup x (by simpa [List.mem_toFinset] using hx)
    rw [← hca, ← hcb, this]

/-- With duplicate-free level ids, looking a member level up by its own id
finds exactly that level. -/
theorem find?_by_id_self {catalog : List LevelDef} {l : LevelDef}
    (hids : (catalog.map LevelDef.id).Nodup) (hl : l ∈ catalog) :
    catalog.find? (fun l' => l'.id == l.id) = some l := by
  induction catalog with
  | nil => cases hl
  | cons h rest ih =>
      rcases List.mem_cons.mp hl with rfl | hmem
      · simp [List.find?]
      · have hne : h.id ≠ l.id := by
          intro he
          have : l.id ∈ rest.map LevelDef.id := List.mem_map.mpr ⟨l, hmem, rfl⟩
          rw [List.map_cons, List.nodup_cons] at hids
          exact hids.1 (he ▸ this)
        have := ih (by rw [List.map_cons, List.nodup_cons] at hids; exact hids.2) hmem
        simp [List.find?, (by simpa using hne : (h.id == l.id) = false), this]

/-- Claim C1 (amended): the completion invariant is preserved by
`updateTaskProgress` when the added task identifier belongs to the targeted
level's task list; `completeLevel` is excluded because it force-sets
`isCompleted` unconditionally. -/
theorem C1_completion_invariant
    (catalog : List LevelDef) (store : Store) (levelId taskId : String)
    (pcu : Option ProjectCode)
    (hids : (catalog.map LevelDef.id).Nodup)
    (hcat : ∀ l ∈ catalog, l.taskIds.Nodup)
    (hstore : storeOK catalog store)
    (htask : ∀ l ∈ catalog, l.id = levelId → taskId ∈ l.taskIds) :
    storeOK catalog (updateTaskProgress catalog store levelId taskId pcu) := by
  intro l hl e he
  by_cases hid : l.id = levelId
  · subst hid
    -- facts about the prior entry
    have hcur : ((getEntry store l.id).getD emptyProgress).completedTasks.Nodup ∧
        (∀ t ∈ ((getEntry store l.id).getD emptyProgress).completedTasks, t ∈ l.taskIds) ∧
        (((getEntry store l.id).getD emptyProgress).isCompleted = true →
          ∀ t ∈ l.taskIds, t ∈ ((getEntry store l.id).getD emptyProgress).completedTasks) := by
      cases hget : getEntry store l.id with
      | none => simp [emptyProgress]
      | some c =>
          obtain ⟨h1, h2, h3⟩ := hstore l hl c hget
          exact ⟨by simpa [hget] using h1, by simpa [hget] using h2,
            by simpa [hget] using h3.mp⟩
    obtain ⟨hnd, hsub, hcomp⟩ := hcur
    set cur := (getEntry store l.id).getD emptyProgress with hcurdef
    have htaskl : taskId ∈ l.taskIds := htask l hl rfl
    have hnew_nd : (setAdd cur.completedTasks taskId).Nodup := setAdd_nodup hnd taskId
    have hnew_sub : ∀ t ∈ setAdd cur.completedTasks taskId, t ∈ l.taskIds := by
      intro t ht
      rcases mem_setAdd ht with h | rfl
      · exact hsub t h
      · exact htaskl
    have hfind : catalog.find? (fun l' => l'.id == l.id) = some l :=
      find?_by_id_self hids hl
    have he' : e = (let newCompletedTasks := setAdd cur.completedTasks taskId
        let updatedLevelData : LevelProgress :=
          { cur with
            completedTasks := newCompletedTasks
            currentProjectCode := pcu.getD cur.currentProjectCode }
        if newCompletedTasks.length == l.taskIds.length then
          { updatedLevelData with isCompleted := true }
        else updatedLevelData) := by
      unfold updateTaskProgress at he
      rw [hfind] at he
      rw [getEntry_setEntry_self] at he
      exact (Option.some.injEq _ _ ▸ he).symm
    cases hbe : ((setAdd cur.completedTasks taskId).length == l.taskIds.length) with
    | true =>
        have hlen : (setAdd cur.completedTasks taskId).length = l.taskIds.length := by
          simpa using hbe
        have hsup : ∀ t ∈ l.taskIds, t ∈ setAdd cur.completedTasks taskId :=
          (nodup_subset_length_iff hnew_nd (hcat l hl) hnew_sub).mp hlen
        rw [he']
        simp only [hbe, if_true]
        refine ⟨hnew_nd, hnew_sub, fun _ => hsup, fun _ => ?_⟩
        trivial
    | false =>
        have hlen : (setAdd cur.completedTasks taskId).length ≠ l.taskIds.length := by
          simpa using hbe
        rw [he']
        simp only [hbe, Bool.false_eq_true, if_false]
        refine ⟨hnew_nd, hnew_sub, ?_, ?_⟩
        · intro hc t ht
          exact mem_setAdd_of_mem taskId (hcomp hc t ht)
        · intro hsup
          exact absurd ((nodup_subset_length_iff hnew_nd (hcat l hl) hnew_sub).mpr
            (fun x hx => hsup x hx)) hlen
  · have : getEntry (updateTaskProgress catalog store levelId taskId pcu) l.id =
        getEntry store l.id := by
      unfold updateTaskProgress
      exact getEntry_setEntry_ne _ _ _ _ hid
    exact hstore l hl e (this ▸ he)

/-- Claim C1, counterexample: on the real catalog, `completeLevel` on a fresh
store marks level 1 completed with an empty completed-task set, and three
`updateTaskProgress` calls with task identifiers foreign to level 1 mark it
completed without its tasks; both break the claimed iff invariant. -/
theorem C1_counterexample :
    invHolds GuroLevels (completeLevel [] "1" none) = false ∧
    invHolds GuroLevels
      (updateTaskProgress GuroLevels
        (updateTaskProgress GuroLevels
          (updateTaskProgress GuroLevels [] "1" "x" none) "1" "y" none)
        "1" "z" none) = false := by
  constructor <;> decide

/-- Claim C1, witness: the amended invariant applied on the real catalog at a
concrete mutation. -/
theorem C1_witness :
    storeOK GuroLevels (updateTaskProgress GuroLevels [] "1" "1.1" none) :=
  C1_completion_invariant GuroLevels [] "1" "1.1" none (by decide) (by decide)
    (fun l _ e he => by simp [getEntry, List.find?] at he) (by decide)

theorem updateTaskProgress_entry (catalog : List LevelDef) (store : Store)
    (levelId taskId : String) (pcu : Option ProjectCode) :
    ∃ v, getEntry (updateTaskProgress catalog store levelId taskId pcu) levelId = some v ∧
      v.completedTasks =
        setAdd ((getEntry store levelId).getD emptyProgress).completedTasks taskId ∧
      (((getEntry store levelId).getD emptyProgress).isCompleted = true →
        v.isCompleted = true) := by
  unfold updateTaskProgress
  refine ⟨_, getEntry_setEntry_self _ _ _, ?_, ?_⟩
  · cases catalog.find? (fun l => l.id == levelId) with
    | none => rfl
    | some ld =>
        dsimp only
        split
        · rfl
        · rfl
  · cases catalog.find? (fun l => l.id == levelId) with
    | none => exact fun h => h
    | some ld =>
        dsimp only
        split
        · exact fun _ => rfl
        · exact fun h => h

theorem completeLevel_entry (store : Store) (levelId : String)
    (fpc : Option ProjectCode) :
    ∃ v, getEntry (completeLevel store levelId fpc) levelId = some v ∧
      v.completedTasks = ((getEntry store levelId).getD emptyProgress).completedTasks ∧
      v.isCompleted = true := by
  unfold completeLevel
  exact ⟨_, getEntry_setEntry_self _ _ _, rfl, rfl⟩

/-- Claim C9: progress is monotone non-decreasing under both Progress Store
mutations — completed-task sets only grow, a true completion flag is never
reset, and re-adding an already-present task identifier leaves the
completed-task set unchanged. -/
theorem C9_progress_monotone
    (catalog : List LevelDef) (store : Store) (levelId taskId lid : String)
    (pcu fpc : Option ProjectCode) (e : LevelProgress)
    (he : getEntry store lid = some e) :
    (∃ e', getEntry (updateTaskProgress catalog store levelId taskId pcu) lid = some e' ∧
        (∀ t ∈ e.completedTasks, t ∈ e'.completedTasks) ∧
        (e.isCompleted = true → e'.isCompleted = true) ∧
        (lid = levelId → taskId ∈ e.completedTasks →
          e'.completedTasks = e.completedTasks)) ∧
    (∃ e', getEntry (completeLevel store levelId fpc) lid = some e' ∧
        (∀ t ∈ e.completedTasks, t ∈ e'.completedTasks) ∧
        (e.isCompleted = true → e'.isCompleted = true)) := by
  constructor
  · by_cases hid : lid = levelId
    · subst hid
      obtain ⟨v, hv, hvc, hvi⟩ := updateTaskProgress_entry catalog store lid taskId pcu
      rw [he] at hvc hvi
      simp only [Option.getD_some] at hvc hvi
      refine ⟨v, hv, ?_, hvi, ?_⟩
      · intro t ht
        rw [hvc]
        exact mem_setAdd_of_mem taskId ht
      · intro _ hmem
        rw [hvc]
        exact setAdd_eq_of_mem hmem
    · refine ⟨e, ?_, fun t ht => ht, fun h => h, fun h => absurd h hid⟩
      unfold updateTaskProgress
      rw [getEntry_setEntry_ne _ _ _ _ hid]
      exact he
  · by_cases hid : lid = levelId
    · subst hid
      obtain ⟨v, hv, hvc, hvi⟩ := completeLevel_entry store lid fpc
      rw [he] at hvc
      simp only [Option.getD_some] at hvc
      exact ⟨v, hv, fun t ht => hvc ▸ ht, fun _ => hvi⟩
    · refine ⟨e, ?_, fun t ht => ht, fun h => h⟩
      unfold completeLevel
      rw [getEntry_setEntry_ne _ _ _ _ hid]
      exact he

/-- Claim C9, witness: monotonicity applied at a concrete store and both
mutations. -/
theorem C9_witness :
    (∃ e', getEntry (updateTaskProgress GuroLevels [("1", ⟨["1.1"], {}, false⟩)]
        "1" "1.1" none) "1" = some e' ∧
      (∀ t ∈ ["1.1"], t ∈ e'.completedTasks) ∧
      (False → e'.isCompleted = true) ∧
      ("1" = "1" → "1.1" ∈ ["1.1"] → e'.completedTasks = ["1.1"])) ∧
    (∃ e', getEntry (completeLevel [("1", ⟨["1.1"], {}, false⟩)] "1" none) "1" = some e' ∧
      (∀ t ∈ ["1.1"], t ∈ e'.completedTasks) ∧
      (False → e'.isCompleted = true)) := by
  have := C9_progress_monotone GuroLevels [("1", ⟨["1.1"], {}, false⟩)]
    "1" "1.1" "1" none none ⟨["1.1"], {}, false⟩ (by decide)
  obtain ⟨⟨e1, h1, h2, h3, h4⟩, ⟨e2, g1, g2, g3⟩⟩ := this
  exact ⟨⟨e1, h1, h2, fun h => absurd h (by simp), h4⟩,
    ⟨e2, g1, g2, fun h => absurd h (by simp)⟩⟩

theorem find?_decomp {α : Type} {p : α → Bool} {l : List α} {a : α}
    (h : l.find? p = some a) :
    ∃ pre post, l = pre ++ a :: post ∧ ∀ b ∈ pre, p b = false := by
  induction l with
  | nil => cases h
  | cons x xs ih =>
      by_cases hx : p x
      · rw [List.find?_cons_of_pos _ hx] at h
        injection h with h2
        subst h2
        exact ⟨[], xs, rfl, by simp⟩
      · rw [List.find?_cons_of_neg _ hx] at h
        obtain ⟨pre, post, heq, hpre⟩ := ih h
        refine ⟨x :: pre, post, by simp [heq], ?_⟩
        intro b hb
        rcases List.mem_cons.mp hb with rfl | hbm
        · simpa using hx
        · exact hpre b hbm

theorem specWalk_eq_find? (progress : Store) :
    ∀ (rest : List LevelDef) (prevOpt : Option LevelDef),
    reachedVia progress prevOpt = true →
    specWalk progress prevOpt rest =
      rest.find? (fun l => !(isCompletedIn progress l.id)) := by
  intro rest
  induction rest with
  | nil => intro prevOpt _; simp [specWalk]
  | cons l rest ih =>
      intro prevOpt hreach
      cases hc : isCompletedIn progress l.id with
      | true =>
          rw [List.find?_cons_of_neg _ (by simp [hc])]
          simp only [specWalk, hreach, hc]
          simpa using ih (some l) (by simpa [reachedVia] using hc)
      | false =>
          rw [List.find?_cons_of_pos _ (by simp [hc])]
          simp [specWalk, hreach, hc]

theorem highestLoop_all_completed (all : List LevelDef) (progress : Store) :
    ∀ (rest : List LevelDef) (maxU : String),
    (∀ l ∈ rest, isCompletedIn progress l.id = true) →
    (highestLoop all progress rest maxU).2 = true := by
  intro rest
  induction rest with
  | nil => intro maxU _; simp [highestLoop]
  | cons l rest ih =>
      intro maxU hall
      have hl : isCompletedIn progress l.id = true := hall l (by simp)
      simp only [highestLoop, hl, if_true]
      exact ih _ (fun x hx => hall x (by simp [hx]))

theorem jsFindIndex_of_append {α : Type} (p : α → Bool) (pre : List α)
    (x : α) (rest : List α) (hpre : ∀ y ∈ pre, p y = false) (hx : p x = true) :
    jsFindIndex p (pre ++ x :: rest) = (pre.length : Int) := by
  induction pre with
  | nil => simp [jsFindIndex, hx]
  | cons y pre ih =>
      have hy : p y = false := hpre y (by simp)
      have ihh := ih (fun z hz => hpre z (by simp [hz]))
      have hne : ((pre.length : Int) == -1) = false := by
        simp only [beq_eq_false_iff_ne, ne_eq]
        omega
      simp only [List.cons_append, jsFindIndex, hy, Bool.false_eq_true, if_false,
        List.append_eq, ihh, hne]
      simp only [List.length_cons]
      omega

theorem jsIndex_append_lt {α : Type} (pre suf : List α) (i : Nat)
    (h : i < pre.length) : jsIndex (pre ++ suf) (i : Int) = pre[i]? := by
  unfold jsIndex
  rw [if_neg (by omega), Int.toNat_natCast]
  exact List.getElem?_append_left h

theorem highestLoop_first_uncompleted (all : List LevelDef) (progress : Store)
    (hids : (all.map LevelDef.id).Nodup) :
    ∀ (rest pre : List LevelDef) (maxU : String) (lv : LevelDef),
    all = pre ++ rest →
    (∀ l ∈ pre, isCompletedIn progress l.id = true) →
    rest.find? (fun l => !(isCompletedIn progress l.id)) = some lv →
    highestLoop all progress rest maxU = (lv.id, false) := by
  intro rest
  induction rest with
  | nil => intro pre maxU lv _ _ h; cases h
  | cons x rest ih =>
      intro pre maxU lv hall hpre hfind
      cases hc : isCompletedIn progress x.id with
      | true =>
          rw [List.find?_cons_of_neg _ (by simp [hc])] at hfind
          simp only [highestLoop, hc, if_true]
          exact ih (pre ++ [x]) _ lv (by simp [hall])
            (fun l hl => by
              rcases List.mem_append.mp hl with h | h
              · exact hpre l h
              · rw [List.mem_singleton.mp h]; exact hc) hfind
      | false =>
          rw [List.find?_cons_of_pos _ (by simp [hc])] at hfind
          obtain rfl : x = lv := Option.some.inj hfind
          -- every id in `pre` differs from `lv.id`
          have hprene : ∀ y ∈ pre, (y.id == x.id) = false := by
            intro y hy
            have h1 : x.id ∈ (x :: rest).map LevelDef.id := by simp
            have hd : (pre.map LevelDef.id).Disjoint ((x :: rest).map LevelDef.id) := by
              have h2 := hall ▸ hids
              rw [List.map_append] at h2
              exact List.disjoint_of_nodup_append h2
            have h3 : y.id ∉ (x :: rest).map LevelDef.id :=
              fun hmem => hd (List.mem_map.mpr ⟨y, hy, rfl⟩) hmem
            have h4 : y.id ≠ x.id := fun he => h3 (he ▸ h1)
            simpa using h4
          have hidx : jsFindIndex (fun l => l.id == x.id) all = (pre.length : Int) := by
            rw [hall]
            exact jsFindIndex_of_append _ pre x rest hprene (by simp)
          cases pre with
          | nil =>
              simp only [highestLoop, hc, Bool.false_eq_true, if_false, hidx]
              simp
          | cons p0 pre' =>
              have hlen : ((((p0 :: pre').length : Int)) == 0) = false := by
                simp only [beq_eq_false_iff_ne, ne_eq, List.length_cons]
                omega
              have hget : jsIndex all (((p0 :: pre').length : Int) - 1) =
                  (p0 :: pre')[pre'.length]? := by
                rw [hall]
                have h5 : (((p0 :: pre').length : Int)) - 1 = ((pre'.length : Nat) : Int) := by
                  simp [List.length_cons]
                rw [h5]
                exact jsIndex_append_lt _ _ _ (by simp)
              simp only [highestLoop, hc, Bool.false_eq_true, if_false, hidx, hlen]
              cases hz : (p0 :: pre')[pre'.length]? with
              | none =>
                  exfalso
                  have h6 : pre'.length < (p0 :: pre').length := by simp
                  rw [List.getElem?_eq_getElem h6] at hz
                  cases hz
              | some z =>
                  have hzc : isCompletedIn progress z.id = true :=
                    hpre z (List.getElem?_mem hz)
                  rw [hget, hz]
                  simp [hzc]

/-- Claim C2: for every catalog (with distinct level ids) and every store,
the recomputed highest-unlocked level is the first level in catalog order
that is reached but not completed (the last level when every level is
completed), and the `[A→B→C]` examples behave as stated. -/
theorem C2_unlock_policy :
    (∀ (all : List LevelDef) (progress : Store),
      (all.map LevelDef.id).Nodup → all ≠ [] →
      computeHighestUnlocked all progress = specHighestUnlocked all progress) ∧
    computeHighestUnlocked abcCatalog [] = "A" ∧
    computeHighestUnlocked abcCatalog [("A", ⟨["a.1"], {}, true⟩)] = "B" ∧
    computeHighestUnlocked abcCatalog
      [("A", ⟨["a.1"], {}, true⟩), ("B", ⟨["b.1"], {}, true⟩),
       ("C", ⟨["c.1"], {}, true⟩)] = "C" := by
  refine ⟨?_, by decide, by decide, by decide⟩
  intro all progress hids hne
  cases hfind : all.find? (fun l => !(isCompletedIn progress l.id)) with
  | some lv =>
      have hloop := highestLoop_first_uncompleted all progress hids all [] "1" lv
        (by simp) (by simp) hfind
      cases all with
      | nil => exact absurd rfl hne
      | cons a rest =>
          have hspec : specWalk progress none (a :: rest) = some lv := by
            rw [specWalk_eq_find? progress (a :: rest) none rfl]
            exact hfind
          simp [computeHighestUnlocked, hloop, specHighestUnlocked, hspec]
  | none =>
      have hall : ∀ l ∈ all, isCompletedIn progress l.id = true := by
        intro l hl
        have := List.find?_eq_none.mp hfind l hl
        simpa using this
      have hflag := highestLoop_all_completed all progress all "1" hall
      cases all with
      | nil => exact absurd rfl hne
      | cons a rest =>
          have hspec : specWalk progress none (a :: rest) = none := by
            rw [specWalk_eq_find? progress (a :: rest) none rfl]
            exact hfind
          simp [computeHighestUnlocked, specHighestUnlocked, hflag, hspec]

/-- Claim C2, witness: the refinement applied to the real catalog with the
empty store. -/
theorem C2_witness :
    computeHighestUnlocked GuroLevels [] = specHighestUnlocked GuroLevels [] :=
  C2_unlock_policy.1 GuroLevels [] (by decide) (by decide)

theorem jsIndex_some_bounds {α : Type} {l : List α} {i : Int} {a : α}
    (h : jsIndex l i = some a) : 0 ≤ i ∧ i < (l.length : Int) := by
  unfold jsIndex at h
  by_cases hneg : i < 0
  · rw [if_pos hneg] at h; cases h
  · rw [if_neg hneg] at h
    by_cases hlt : i.toNat < l.length
    · omega
    · rw [List.getElem?_eq_none (by omega)] at h; cases h

/-- Claim C6: a selection beyond the highest-unlocked index is rejected with
no change to the session state or the store, and the rejection message names
the prerequisite level whenever the immediately-next-locked level is
determinable; a selection at or below the highest-unlocked index is
accepted with no message. -/
theorem C6_selection_guard
    (all : List LevelDef) (highest : String) (st : AppState) (levelId : String)
    (l : LevelDef) (hfound : all.find? (fun l' => l'.id == levelId) = some l) :
    (jsFindIndex (fun l' => l'.id == highest) all <
        jsFindIndex (fun l' => l'.id == levelId) all →
      (selectLevel all highest st levelId).1 = st ∧
      (selectLevel all highest st levelId).1.userProgress = st.userProgress ∧
      (∀ hl nl,
        jsIndex all (jsFindIndex (fun l' => l'.id == highest) all) = some hl →
        jsIndex all (jsFindIndex (fun l' => l'.id == highest) all + 1) = some nl →
        (selectLevel all highest st levelId).2 =
          some ("Please complete \"" ++ hl.title ++ "\" to unlock \"" ++
            nl.title ++ "\"."))) ∧
    (jsFindIndex (fun l' => l'.id == levelId) all ≤
        jsFindIndex (fun l' => l'.id == highest) all →
      (selectLevel all highest st levelId).1 =
        { st with currentLevelId := some levelId, currentView := .level_view } ∧
      (selectLevel all highest st levelId).1.userProgress = st.userProgress ∧
      (selectLevel all highest st levelId).2 = none) := by
  constructor
  · intro hgt
    have hcond : ¬ (jsFindIndex (fun l' => l'.id == levelId) all ≤
        jsFindIndex (fun l' => l'.id == highest) all) := by omega
    refine ⟨?_, ?_, ?_⟩
    · simp [selectLevel, hfound, hcond]
    · simp [selectLevel, hfound, hcond]
    · intro hl nl hhl hnl
      have hblt := jsIndex_some_bounds hnl
      simp only [selectLevel, hfound]
      rw [if_neg hcond, if_pos (by omega), hhl, hnl]
  · intro hle
    refine ⟨?_, ?_, ?_⟩ <;> simp [selectLevel, hfound, hle]

/-- Claim C6, witness: on the real catalog with only level 1 unlocked,
selecting level 2 is rejected with the message naming the prerequisite, and
selecting level 1 is accepted. -/
theorem C6_witness :
    ((selectLevel GuroLevels "1" ⟨.level_selector, none, []⟩ "2").1 =
        ⟨.level_selector, none, []⟩ ∧
      (selectLevel GuroLevels "1" ⟨.level_selector, none, []⟩ "2").2 =
        some "Please complete \"Intro: What is HTML?\" to unlock \"Paragraphs and Text\".") ∧
    ((selectLevel GuroLevels "1" ⟨.level_selector, none, []⟩ "1").1 =
        ⟨.level_view, some "1", []⟩ ∧
      (selectLevel GuroLevels "1" ⟨.level_selector, none, []⟩ "1").2 = none) := by
  have h2 := (C6_selection_guard GuroLevels "1" ⟨.level_selector, none, []⟩ "2"
    ⟨"2", "Paragraphs and Text", ["2.1", "2.2", "2.3"], some "3"⟩ (by decide)).1
    (by decide)
  have h1 := (C6_selection_guard GuroLevels "1" ⟨.level_selector, none, []⟩ "1"
    ⟨"1", "Intro: What is HTML?", ["1.1", "1.2", "1.3"], some "2"⟩ (by decide)).2
    (by decide)
  refine ⟨⟨h2.1, ?_⟩, ⟨h1.1, h1.2.2⟩⟩
  have := h2.2.2 ⟨"1", "Intro: What is HTML?", ["1.1", "1.2", "1.3"], some "2"⟩
    ⟨"2", "Paragraphs and Text", ["2.1", "2.2", "2.3"], some "3"⟩ (by decide) (by decide)
  simpa using this

/-- Claim C8: editing while a failure message is showing clears it; editing
while a success message is showing keeps it; the editor text is always
updated. -/
theorem C8_feedback_on_edit (st : SessionEditorState) (newCode : String)
    (r : ValidationResult) :
    (st.feedback = some r → r.success = false →
      (handleCodeChange st newCode).feedback = none) ∧
    (st.feedback = some r → r.success = true →
      (handleCodeChange st newCode).feedback = some r) ∧
    (handleCodeChange st newCode).userCode = newCode := by
  refine ⟨?_, ?_, ?_⟩
  · intro h1 h2
    simp [handleCodeChange, h1, h2]
  · intro h1 h2
    simp [handleCodeChange, h1, h2]
  · unfold handleCodeChange
    split <;> rfl

/-- Claim C8, witness: a concrete failure feedback is cleared and a concrete
success feedback is kept. -/
theorem C8_witness :
    (handleCodeChange ⟨"a", some ⟨false, "nope", none⟩⟩ "b").feedback = none ∧
    (handleCodeChange ⟨"a", some ⟨true, "yay", none⟩⟩ "b").feedback =
      some ⟨true, "yay", none⟩ ∧
    (handleCodeChange ⟨"a", some ⟨false, "nope", none⟩⟩ "b").userCode = "b" := by
  refine ⟨?_, ?_, ?_⟩
  · exact (C8_feedback_on_edit ⟨"a", some ⟨false, "nope", none⟩⟩ "b"
      ⟨false, "nope", none⟩).1 rfl rfl
  · exact (C8_feedback_on_edit ⟨"a", some ⟨true, "yay", none⟩⟩ "b"
      ⟨true, "yay", none⟩).2.1 rfl rfl
  · exact (C8_feedback_on_edit ⟨"a", some ⟨false, "nope", none⟩⟩ "b"
      ⟨false, "nope", none⟩).2.2

theorem foldl_setAdd_of_nodup :
    ∀ (l acc : List String), (acc ++ l).Nodup → l.foldl setAdd acc = acc ++ l := by
  intro l
  induction l with
  | nil => intro acc _; simp
  | cons x l ih =>
      intro acc h
      have hx : x ∉ acc := by
        intro hm
        exact List.disjoint_of_nodup_append h hm (by simp)
      have hstep : setAdd acc x = acc ++ [x] := by simp [setAdd, hx]
      have h2 : ((acc ++ [x]) ++ l).Nodup := by
        rw [List.append_assoc]
        simpa using h
      simp only [List.foldl_cons, hstep, ih (acc ++ [x]) h2]
      simp

theorem deserialize_serialize_entry (e : LevelProgress)
    (h : e.completedTasks.Nodup) :
    deserializeProgress
      ⟨some (.arr e.completedTasks), e.currentProjectCode, e.isCompleted⟩ = e := by
  cases e with
  | mk tasks pc comp =>
      simp only [deserializeProgress, setFromList]
      rw [foldl_setAdd_of_nodup _ [] (by simpa using h)]
      simp

/-- Claim C5: serializing a well-formed store (completed-task sets written
as arrays) and deserializing the result (arrays restored to sets) yields
the original store: same completed-task sets, same project code, same
completion flags. -/
theorem C5_save_load_roundtrip (s : Store)
    (h : ∀ p ∈ s, p.2.completedTasks.Nodup) :
    deserializeStore (serializeStore s) = s := by
  induction s with
  | nil => rfl
  | cons p rest ih =>
      have hp : p.2.completedTasks.Nodup := h p (by simp)
      have hrest : deserializeStore (serializeStore rest) = rest :=
        ih (fun q hq => h q (by simp [hq]))
      simp only [serializeStore, List.map_cons, deserializeStore] at hrest ⊢
      rw [hrest, deserialize_serialize_entry p.2 hp]

/-- Claim C5, witness: the round trip applied at a concrete store. -/
theorem C5_witness :
    deserializeStore (serializeStore
      [("1", ⟨["1.1", "1.2"], ⟨some "<p></p>", none, none⟩, false⟩)]) =
    [("1", ⟨["1.1", "1.2"], ⟨some "<p></p>", none, none⟩, false⟩)] :=
  C5_save_load_roundtrip _ (by decide)

/-- Claim C7: the structural markup validator accepts the basic document
structure, and reports the missing `head` element when `<head>` is
removed. -/
theorem C7_basic_structure :
    validateHTMLStructure "<html><head></head><body></body></html>"
      [⟨"html", none, [], none, none⟩,
       ⟨"head", none, [], none, some "html"⟩,
       ⟨"body", none, [], none, some "html"⟩] =
      { success := true, message := "HTML structure looks good!",
        updatedProjectCode := none } ∧
    validateHTMLStructure "<html><body></body></html>"
      [⟨"html", none, [], none, none⟩,
       ⟨"head", none, [], none, some "html"⟩,
       ⟨"body", none, [], none, some "html"⟩] =
      { success := false, message := "Missing <head> element inside html.",
        updatedProjectCode := none } := by
  constructor <;> decide

theorem validateLoop_success_iff (doc : Doc) :
    ∀ els : List ElementExpectation,
    (validateHTMLStructureLoop doc els).success = true ↔
      ∀ e ∈ els, checkExpectation doc e = none := by
  intro els
  induction els with
  | nil => simp [validateHTMLStructureLoop]
  | cons el rest ih =>
      cases hc : checkExpectation doc el with
      | some m =>
          simp only [validateHTMLStructureLoop, hc]
          constructor
          · intro h; cases h
          · intro h
            have h2 := h el (by simp)
            rw [hc] at h2
            cases h2
      | none =>
          simp only [validateHTMLStructureLoop, hc]
          rw [ih]
          constructor
          · intro h e he
            rcases List.mem_cons.mp he with rfl | hm
            · exact hc
            · exact h e hm
          · intro h e he
            exact h e (by simp [he])

theorem validateLoop_append_fail (doc : Doc) :
    ∀ (pre : List ElementExpectation) (el : ElementExpectation)
      (rest : List ElementExpectation) (m : String),
    (∀ e ∈ pre, checkExpectation doc e = none) →
    checkExpectation doc el = some m →
    validateHTMLStructureLoop doc (pre ++ el :: rest) =
      { success := false, message := m, updatedProjectCode := none } := by
  intro pre
  induction pre with
  | nil =>
      intro el rest m _ hel
      simp [validateHTMLStructureLoop, hel]
  | cons e pre ih =>
      intro el rest m hpre hel
      have he : checkExpectation doc e = none := hpre e (by simp)
      simp only [List.cons_append, validateHTMLStructureLoop, he]
      exact ih el rest m (fun x hx => hpre x (by simp [hx])) hel

theorem isPrefixOf_append_self : ∀ (l t : List Char), l.isPrefixOf (l ++ t) = true := by
  intro l
  induction l with
  | nil => intro t; simp [List.isPrefixOf]
  | cons c l ih => intro t; simp [List.isPrefixOf, ih]

theorem firstMatchPos_append (needle post : List Char) :
    ∀ pre : List Char, (firstMatchPos needle (pre ++ (needle ++ post))).isSome = true := by
  intro pre
  induction pre with
  | nil =>
      cases needle with
      | nil =>
          cases post with
          | nil => simp [firstMatchPos]
          | cons c cs => simp [firstMatchPos, List.isPrefixOf]
      | cons n ns =>
          simp only [List.nil_append, List.cons_append, firstMatchPos, List.append_eq]
          have hp : (n :: ns).isPrefixOf (n :: (ns ++ post)) = true :=
            isPrefixOf_append_self (n :: ns) post
          rw [if_pos hp]
          rfl
  | cons c pre ih =>
      by_cases hp : (needle.isPrefixOf (c :: (pre ++ (needle ++ post)))) = true
      · simp [firstMatchPos, hp]
      · simp only [List.cons_append, firstMatchPos]
        rw [if_neg (by simpa using hp)]
        simpa using ih

theorem strIncludes_intro (m sub : String) (a b : List Char)
    (h : m.data = a ++ (sub.data ++ b)) : strIncludes m sub = true := by
  unfold strIncludes
  rw [h]
  exact firstMatchPos_append sub.data b a

theorem checkAttrs_message_tag (tag : String) (fe : DomNode) :
    ∀ (attrs : List (String × StrMatcher)) (m : String),
    checkAttrs tag fe attrs = some m →
    strIncludes m ("<" ++ tag ++ ">") = true := by
  intro attrs
  induction attrs with
  | nil => intro m h; cases h
  | cons p rest ih =>
      intro m h
      obtain ⟨attr, ev⟩ := p
      cases ev with
      | pattern src test =>
          cases hg : getAttribute fe attr with
          | none =>
              simp only [checkAttrs, hg] at h
              injection h with h'
              subst h'
              exact strIncludes_intro _ _ []
                ((" element attribute '" ++ attr ++ "' value \"" ++
                  attrValStr none ++ "\" does not match pattern.").data)
                (by simp [String.data_append, List.append_assoc])
          | some v =>
              simp only [checkAttrs, hg] at h
              cases ht : test v with
              | true =>
                  rw [ht] at h
                  simp only [Bool.not_true, Bool.false_eq_true, if_false] at h
                  exact ih m h
              | false =>
                  rw [ht] at h
                  simp only [Bool.not_false, if_true] at h
                  injection h with h'
                  subst h'
                  exact strIncludes_intro _ _ []
                    ((" element attribute '" ++ attr ++ "' value \"" ++
                      attrValStr (some v) ++ "\" does not match pattern.").data)
                    (by simp [String.data_append, List.append_assoc])
      | str s =>
          simp only [checkAttrs] at h
          by_cases hv : getAttribute fe attr = some s
          · rw [if_neg (by simpa using hv)] at h
            exact ih m h
          · rw [if_pos (by simpa using hv)] at h
            injection h with h'
            subst h'
            exact strIncludes_intro _ _ []
              ((" element attribute '" ++ attr ++ "' should be '" ++ s ++
                "'. Found '" ++ attrValStr (getAttribute fe attr) ++ "'.").data)
              (by simp [String.data_append, List.append_assoc])

theorem checkTextAttrs_message_tag (el : ElementExpectation) (fe : DomNode)
    (m : String) (h : checkTextAttrs el fe = some m) :
    strIncludes m ("<" ++ el.tag ++ ">") = true := by
  unfold checkTextAttrs at h
  cases hct : checkText el fe with
  | some m1 =>
      rw [hct] at h
      injection h with h'
      subst h'
      unfold checkText at hct
      cases hel : el.text with
      | none => rw [hel] at hct; cases hct
      | some sm =>
          rw [hel] at hct
          cases sm with
          | str s =>
              dsimp only at hct
              by_cases hs : (s == "") = true
              · rw [if_pos hs] at hct; cases hct
              · rw [if_neg hs] at hct
                by_cases hinc : strIncludes (textContent fe) s = true
                · rw [hinc] at hct; simp at hct
                · rw [(by simpa using hinc : strIncludes (textContent fe) s = false)] at hct
                  simp only [Bool.not_false, if_true] at hct
                  injection hct with h2
                  subst h2
                  exact strIncludes_intro _ _ []
                    ((" element should contain text: \"" ++ s ++ "\". Found: \"" ++
                      textContent fe ++ "\"").data)
                    (by simp [String.data_append, List.append_assoc])
          | pattern src test =>
              dsimp only at hct
              cases ht : test (textContent fe) with
              | true => rw [ht] at hct; simp at hct
              | false =>
                  rw [ht] at hct
                  simp only [Bool.not_false, if_true] at hct
                  injection hct with h2
                  subst h2
                  exact strIncludes_intro _ _ []
                    ((" element text does not match pattern. Found: \"" ++
                      textContent fe ++ "\"").data)
                    (by simp [String.data_append, List.append_assoc])
  | none =>
      rw [hct] at h
      exact checkAttrs_message_tag el.tag fe el.attributes m h

theorem checkExpectation_message_tag (doc : Doc) (el : ElementExpectation)
    (m : String) (h : checkExpectation doc el = some m) :
    strIncludes m ("<" ++ el.tag ++ ">") = true := by
  unfold checkExpectation at h
  dsimp only at h
  cases hcc : countCheck el (querySelectorAll doc el.parentSelector el.tag).length with
  | some m1 =>
      rw [hcc] at h
      injection h with h'
      subst h'
      unfold countCheck at hcc
      cases hel : el.count with
      | none =>
          rw [hel] at hcc
          dsimp only at hcc
          cases hcc
      | some c =>
          rw [hel] at hcc
          dsimp only at hcc
          by_cases hne : ((querySelectorAll doc el.parentSelector el.tag).length != c) = true
          · rw [if_pos hne] at hcc
            injection hcc with h2
            subst h2
            exact strIncludes_intro _ _
              (("Expected " ++ toString c ++ " ").data)
              ((" element(s)" ++ insideSuffix el.parentSelector ++ ", but found " ++
                toString (querySelectorAll doc el.parentSelector el.tag).length ++ ".").data)
              (by simp [String.data_append, List.append_assoc])
          · rw [if_neg hne] at hcc; cases hcc
  | none =>
      rw [hcc] at h
      cases hmc : missingCheck el (querySelectorAll doc el.parentSelector el.tag).length with
      | some m1 =>
          rw [hmc] at h
          injection h with h'
          subst h'
          unfold missingCheck at hmc
          by_cases hcond : (countFalsy el.count &&
              (querySelectorAll doc el.parentSelector el.tag).length == 0 &&
              el.tag != "!--") = true
          · rw [if_pos hcond] at hmc
            injection hmc with h2
            subst h2
            exact strIncludes_intro _ _ ("Missing ".data)
              ((" element" ++ insideSuffix el.parentSelector ++ ".").data)
              (by simp [String.data_append, List.append_assoc])
          · rw [if_neg hcond] at hmc; cases hmc
      | none =>
          rw [hmc] at h
          cases hq : querySelectorAll doc el.parentSelector el.tag with
          | nil => rw [hq] at h; cases h
          | cons fe rest =>
              rw [hq] at h
              exact checkTextAttrs_message_tag el fe m h

theorem checkExpectation_none_counts (doc : Doc) (el : ElementExpectation)
    (h : checkExpectation doc el = none) :
    (∀ c, el.count = some c →
      (querySelectorAll doc el.parentSelector el.tag).length = c) ∧
    (el.count = none → el.tag ≠ "!--" →
      1 ≤ (querySelectorAll doc el.parentSelector el.tag).length) := by
  unfold checkExpectation at h
  dsimp only at h
  cases hcc : countCheck el (querySelectorAll doc el.parentSelector el.tag).length with
  | some m => rw [hcc] at h; cases h
  | none =>
      cases hmc : missingCheck el (querySelectorAll doc el.parentSelector el.tag).length with
      | some m => rw [hcc, hmc] at h; cases h
      | none =>
          constructor
          · intro c hc
            unfold countCheck at hcc
            rw [hc] at hcc
            dsimp only at hcc
            by_cases hne : (querySelectorAll doc el.parentSelector el.tag).length = c
            · exact hne
            · rw [if_pos (by simpa using hne)] at hcc
              cases hcc
          · intro hcn htag
            unfold missingCheck at hmc
            by_cases hz : (querySelectorAll doc el.parentSelector el.tag).length = 0
            · rw [if_pos ?_] at hmc
              · cases hmc
              · simp [hcn, countFalsy, hz, htag]
            · omega

theorem checkExpectation_first_only (doc1 doc2 : Doc) (el : ElementExpectation)
    (fe : DomNode) (r1 r2 : List DomNode) (hcount : el.count = none)
    (h1 : querySelectorAll doc1 el.parentSelector el.tag = fe :: r1)
    (h2 : querySelectorAll doc2 el.parentSelector el.tag = fe :: r2) :
    checkExpectation doc1 el = checkExpectation doc2 el := by
  unfold checkExpectation
  dsimp only
  rw [h1, h2]
  have hcc : ∀ n, countCheck el n = none := by
    intro n
    unfold countCheck
    rw [hcount]
  have hmc : ∀ r : List DomNode, missingCheck el (fe :: r).length = none := by
    intro r
    unfold missingCheck
    rw [if_neg (by simp)]
  rw [hcc, hcc, hmc, hmc]

/-- Claim C3: the structural markup validator processes expectations in
order and fails immediately at the first unmet one with a message naming the
failing tag; it succeeds exactly when every expectation passes; a specified
count forces exact quantity and an omitted count requires at least one match
unless the tag is the comment marker; and text/attribute checks consult only
the first matching element. -/
theorem C3_markup_validator_semantics :
    (∀ (doc : Doc) (pre : List ElementExpectation) (el : ElementExpectation)
        (rest : List ElementExpectation) (m : String),
      (∀ e ∈ pre, checkExpectation doc e = none) →
      checkExpectation doc el = some m →
      validateHTMLStructureLoop doc (pre ++ el :: rest) =
        { success := false, message := m, updatedProjectCode := none }) ∧
    (∀ (doc : Doc) (els : List ElementExpectation),
      (validateHTMLStructureLoop doc els).success = true ↔
        ∀ e ∈ els, checkExpectation doc e = none) ∧
    (∀ (doc : Doc) (el : ElementExpectation),
      checkExpectation doc el = none →
      (∀ c, el.count = some c →
        (querySelectorAll doc el.parentSelector el.tag).length = c) ∧
      (el.count = none → el.tag ≠ "!--" →
        1 ≤ (querySelectorAll doc el.parentSelector el.tag).length)) ∧
    (∀ (doc1 doc2 : Doc) (el : ElementExpectation) (fe : DomNode)
        (r1 r2 : List DomNode),
      el.count = none →
      querySelectorAll doc1 el.parentSelector el.tag = fe :: r1 →
      querySelectorAll doc2 el.parentSelector el.tag = fe :: r2 →
      checkExpectation doc1 el = checkExpectation doc2 el) ∧
    (∀ (doc : Doc) (el : ElementExpectation) (m : String),
      checkExpectation doc el = some m →
      strIncludes m ("<" ++ el.tag ++ ">") = true) :=
  ⟨fun doc pre el rest m hpre hel => validateLoop_append_fail doc pre el rest m hpre hel,
   fun doc els => validateLoop_success_iff doc els,
   fun doc el h => checkExpectation_none_counts doc el h,
   fun doc1 doc2 el fe r1 r2 hc h1 h2 =>
     checkExpectation_first_only doc1 doc2 el fe r1 r2 hc h1 h2,
   fun doc el m h => checkExpectation_message_tag doc el m h⟩

/-- Claim C3, witness: the ordering/short-circuit part applied to a concrete
document and expectations (an unmet `span` expectation after a met `p`
expectation). -/
theorem C3_witness :
    validateHTMLStructureLoop (parseHTML "<p></p>")
      ([⟨"p", none, [], none, none⟩] ++ ⟨"span", none, [], none, none⟩ ::
        [⟨"div", none, [], none, none⟩]) =
      { success := false, message := "Missing <span> element.",
        updatedProjectCode := none } :=
  C3_markup_validator_semantics.1 (parseHTML "<p></p>")
    [⟨"p", none, [], none, none⟩] ⟨"span", none, [], none, none⟩
    [⟨"div", none, [], none, none⟩] "Missing <span> element."
    (by intro e he; simp at he; subst he; decide) (by decide)

theorem checkExpectation_zero_count (doc : Doc) (el : ElementExpectation)
    (hcount : el.count = some 0) (htag : el.tag ≠ "!--") :
    checkExpectation doc el ≠ none := by
  unfold checkExpectation
  dsimp only
  by_cases hz : (querySelectorAll doc el.parentSelector el.tag).length = 0
  · have hcc : countCheck el (querySelectorAll doc el.parentSelector el.tag).length =
        none := by
      unfold countCheck
      rw [hcount]
      dsimp only
      rw [if_neg (by simp [hz])]
    have hmc : missingCheck el (querySelectorAll doc el.parentSelector el.tag).length ≠
        none := by
      unfold missingCheck
      rw [if_pos (by simp [hcount, countFalsy, hz, htag])]
      simp
    rw [hcc]
    cases hmcv : missingCheck el (querySelectorAll doc el.parentSelector el.tag).length with
    | none => exact absurd hmcv hmc
    | some m => simp
  · have hcc : countCheck el (querySelectorAll doc el.parentSelector el.tag).length ≠
        none := by
      unfold countCheck
      rw [hcount]
      dsimp only
      rw [if_pos (by simpa using hz)]
      simp
    cases hccv : countCheck el (querySelectorAll doc el.parentSelector el.tag).length with
    | none => exact absurd hccv hcc
    | some m => simp

/-- Claim C10: the structural markup validator never succeeds when the
expectation list contains an entry with count 0 for a non-comment tag: with
matches present the exact-count check fails, and with none the falsy zero
count routes into the missing-element check, which fails. -/
theorem C10_zero_count_never_succeeds (code : String)
    (els : List ElementExpectation) (el : ElementExpectation)
    (hmem : el ∈ els) (hcount : el.count = some 0) (htag : el.tag ≠ "!--") :
    (validateHTMLStructure code els).success = false := by
  unfold validateHTMLStructure
  cases hs : (validateHTMLStructureLoop (parseHTML code) els).success with
  | false => rfl
  | true =>
      have hnone := (validateLoop_success_iff (parseHTML code) els).mp hs el hmem
      exact absurd hnone (checkExpectation_zero_count _ el hcount htag)

/-- Claim C10, witness: a zero-count `p` expectation fails both on a
document with a `p` and on one without. -/
theorem C10_witness :
    (validateHTMLStructure "<p></p>" [⟨"p", none, [], some 0, none⟩]).success = false ∧
    (validateHTMLStructure "" [⟨"p", none, [], some 0, none⟩]).success = false :=
  ⟨C10_zero_count_never_succeeds "<p></p>" [⟨"p", none, [], some 0, none⟩]
      ⟨"p", none, [], some 0, none⟩ (by simp) rfl (by decide),
    C10_zero_count_never_succeeds "" [⟨"p", none, [], some 0, none⟩]
      ⟨"p", none, [], some 0, none⟩ (by simp) rfl (by decide)⟩

theorem validateCSSLoop_success_iff (code : String) :
    ∀ styles : List StyleExpectation,
    (validateCSSPropertiesLoop code styles).success = true ↔
      ∀ s ∈ styles, checkStyle code s = none := by
  intro styles
  induction styles with
  | nil => simp [validateCSSPropertiesLoop]
  | cons style rest ih =>
      cases hc : checkStyle code style with
      | some m =>
          simp only [validateCSSPropertiesLoop, hc]
          constructor
          · intro h; cases h
          · intro h
            have h2 := h style (by simp)
            rw [hc] at h2
            cases h2
      | none =>
          simp only [validateCSSPropertiesLoop, hc]
          rw [ih]
          constructor
          · intro h s hs
            rcases List.mem_cons.mp hs with rfl | hm
            · exact hc
            · exact h s hm
          · intro h s hs
            exact h s (by simp [hs])

theorem validateCSSLoop_append_fail (code : String) :
    ∀ (pre : List StyleExpectation) (style : StyleExpectation)
      (rest : List StyleExpectation) (m : String),
    (∀ s ∈ pre, checkStyle code s = none) →
    checkStyle code style = some m →
    validateCSSPropertiesLoop code (pre ++ style :: rest) =
      { success := false, message := m, updatedProjectCode := none } := by
  intro pre
  induction pre with
  | nil =>
      intro style rest m _ hstyle
      simp [validateCSSPropertiesLoop, hstyle]
  | cons s pre ih =>
      intro style rest m hpre hstyle
      have hs : checkStyle code s = none := hpre s (by simp)
      simp only [List.cons_append, validateCSSPropertiesLoop, hs]
      exact ih style rest m (fun x hx => hpre x (by simp [hx])) hstyle

/-- Claim C4: the structural style validator approves `h1 { color: red; }`
against a literal `color: red` expectation (case-insensitively: `RED` also
passes), rejects `h1 { color: blue; }` with a message naming the property
and the selector, fails immediately with a message naming the selector when
the selector does not occur, and succeeds exactly when every style
expectation passes (first failure reported immediately, in order). -/
theorem C4_style_validator :
    validateCSSProperties "h1 { color: red; }"
      [⟨"h1", [("color", .str "red")]⟩] =
      { success := true, message := "CSS styles look correct!",
        updatedProjectCode := none } ∧
    validateCSSProperties "h1 { color: blue; }"
      [⟨"h1", [("color", .str "red")]⟩] =
      { success := false,
        message := "Property 'color' for 'h1' should be 'red', but found 'blue'.",
        updatedProjectCode := none } ∧
    validateCSSProperties "h1 { color: RED; }"
      [⟨"h1", [("color", .str "red")]⟩] =
      { success := true, message := "CSS styles look correct!",
        updatedProjectCode := none } ∧
    (∀ (code : String) (style : StyleExpectation) (rest : List StyleExpectation),
      jsIndexOfFrom code.data style.selector.data 0 = -1 →
      validateCSSProperties code (style :: rest) =
        { success := false,
          message := "CSS rule for selector '" ++ style.selector ++ "' not found.",
          updatedProjectCode := none }) ∧
    (∀ (code : String) (styles : List StyleExpectation),
      (validateCSSProperties code styles).success = true ↔
        ∀ s ∈ styles, checkStyle code s = none) ∧
    (∀ (code : String) (pre : List StyleExpectation) (style : StyleExpectation)
        (rest : List StyleExpectation) (m : String),
      (∀ s ∈ pre, checkStyle code s = none) →
      checkStyle code style = some m →
      validateCSSProperties code (pre ++ style :: rest) =
        { success := false, message := m, updatedProjectCode := none }) := by
  refine ⟨by decide, by decide, by decide, ?_, ?_, ?_⟩
  · intro code style rest hsel
    have hcs : checkStyle code style =
        some ("CSS rule for selector '" ++ style.selector ++ "' not found.") := by
      unfold checkStyle
      rw [hsel]
      rfl
    simp [validateCSSProperties, validateCSSPropertiesLoop, hcs]
  · intro code styles
    exact validateCSSLoop_success_iff code styles
  · intro code pre style rest m hpre hstyle
    exact validateCSSLoop_append_fail code pre style rest m hpre hstyle

/-- Claim C4, witness: the missing-selector and ordering parts applied at
concrete inputs. -/
theorem C4_witness :
    validateCSSProperties "p { }" [⟨"h1", [("color", .str "red")]⟩] =
      { success := false, message := "CSS rule for selector 'h1' not found.",
        updatedProjectCode := none } :=
  (C4_style_validator.2.2.2.1) "p { }" ⟨"h1", [("color", .str "red")]⟩ []
    (by decide)
